import Mathlib

/-!
Verification of the network assembly and rate-evaluation engine of
`pynucastro/networks/rate_collection.py`.

The Python source is shallowly embedded: mass fractions, densities,
temperatures and rate values are modelled as exact rationals (`ℚ`);
Python dictionaries become association lists; operations that can raise
(`KeyError`, `TypeError` from `functools.reduce` on an empty iterable,
`ZeroDivisionError`, the `exit()` call on an unknown chapter) become
`Option`/`Except` values or explicit success predicates.
-/

namespace RateCollectionPy

/-- External `Nucleus` value type (from `pynucastro.rates`): a canonical
lowercase name `raw`, mass number `A`, proton number `Z`, neutron number
`N`, and a display label `pretty`.  It is opaque to this module, which only
uses its fields, its structural equality and a total order. -/
structure Nucleus where
  raw : String
  A : Nat
  Z : Nat
  N : Nat
  pretty : String
deriving DecidableEq, Repr

/-- The external total order on `Nucleus` (used only through `sorted`):
modelled lexicographically on `(Z, A, N)`. -/
def nucLe (a b : Nucleus) : Prop :=
  a.Z < b.Z ∨ (a.Z = b.Z ∧ (a.A < b.A ∨ (a.A = b.A ∧ a.N ≤ b.N)))

instance : DecidableRel nucLe := fun a b => by
  unfold nucLe; infer_instance

instance : IsTotal Nucleus nucLe := ⟨by intro a b; unfold nucLe; omega⟩

instance : IsTrans Nucleus nucLe := ⟨by intro a b c; unfold nucLe; omega⟩

/-- The nucleus constructed by `Nucleus("p")` (the proton), against which
`set_solar_like` compares with `==`. -/
def protonNucleus : Nucleus := ⟨"p", 1, 1, 0, "p"⟩

/-- A rate's `chapter` attribute: a Reaclib integer chapter, the tabulated
sentinel string `'t'`, or anything else (which `RateCollection.__init__`
rejects with an error and `exit()`). -/
inductive Chapter where
  | num : Int → Chapter
  | tab : Chapter
  | other : String → Chapter
deriving DecidableEq, Repr

/-- `isinstance(r.chapter, int)` for our `Chapter` model. -/
def Chapter.isNum : Chapter → Bool
  | .num _ => true
  | _ => false

/-- `r.chapter == 't'` for our `Chapter` model. -/
def Chapter.isTab : Chapter → Bool
  | .tab => true
  | _ => false

/-- External `Rate` object (from `pynucastro.rates`): ordered reactant and
product sequences (multiplicities matter), a chapter classification, a
density exponent, a numeric prefactor, the unique name `fname`, a display
string, and the temperature-dependent coefficient `eval`. -/
structure Rate where
  reactants : List Nucleus
  products : List Nucleus
  chapter : Chapter
  dens_exp : Nat
  prefactor : ℚ
  fname : String
  string : String
  eval : ℚ → ℚ

/-- `Composition.X`: the Python dict mapping each `Nucleus` to its mass
fraction, as an association list in insertion order. -/
structure Composition where
  X : List (Nucleus × ℚ)
deriving Repr

/-- Dictionary lookup `d[k]` on an association list; `none` models a
`KeyError`. -/
def alookup (k : Nucleus) : List (Nucleus × ℚ) → Option ℚ
  | [] => none
  | (a, v) :: rest => if a = k then some v else alookup k rest

/-- The key set of an association list (`d.keys()`). -/
def akeys (l : List (Nucleus × ℚ)) : List Nucleus := l.map Prod.fst

/-- `Composition.get_molar`: a fresh dict `{k: v / k.A for k, v in X.items()}`;
it reads but never writes `self.X`. -/
def get_molar (c : Composition) : List (Nucleus × ℚ) :=
  c.X.map (fun kv => (kv.1, kv.2 / (kv.1.A : ℚ)))

/-- The sum `sum([self.X[k] for k in self.X])`. -/
def xsum (c : Composition) : ℚ := (c.X.map Prod.snd).sum

/-- `Composition.normalize`: divide every mass fraction by the current sum.
When the sum is zero the Python float division raises `ZeroDivisionError`,
modelled as `none`. -/
def normalize (c : Composition) : Option Composition :=
  if xsum c = 0 then none
  else some ⟨c.X.map (fun kv => (kv.1, kv.2 / xsum c))⟩

/-- The assignment loop of `Composition.set_solar_like`: `p` gets `0.7`,
the nucleus whose `raw` name is `"he4"` gets `0.3 - Z`, every other
nucleus gets `rem = Z / (num - 2)` where `num = len(self.X)`. -/
def solar_assign (c : Composition) (Z : ℚ) : Composition :=
  ⟨c.X.map (fun kv =>
    (kv.1,
      if kv.1 = protonNucleus then 7/10
      else if kv.1.raw = "he4" then 3/10 - Z
      else Z / ((c.X.length : ℚ) - 2)))⟩

/-- `Composition.set_solar_like`: compute `rem = Z/(num-2)` (raising
`ZeroDivisionError` when `num = 2`, modelled as `none`), run the
assignment loop, then `normalize`. -/
def set_solar_like (c : Composition) (Z : ℚ) : Option Composition :=
  if c.X.length = 2 then none
  else normalize (solar_assign c Z)

/-- The sort key `lambda r: r.chapter == 't'` of the partition step, with
Python's `False < True` rendered as `0 < 1`. -/
def tabKey (r : Rate) : Nat := if r.chapter.isTab then 1 else 0

/-- The ordering induced by the boolean sort key.  Python's `sorted` is a
stable sort; `List.insertionSort` with this non-strict relation is the
matching stable sort. -/
def tabLe (a b : Rate) : Prop := tabKey a ≤ tabKey b

instance : DecidableRel tabLe := fun a b => by
  unfold tabLe; infer_instance

/-- A `RateCollection` after `__init__` has run: the (re-ordered) rate
list, `unique_nuclei`, the two per-nucleus dictionaries (modelled as
functions; the Python dicts are defined exactly on `unique_nuclei`), and
the two post-partition index lists. -/
structure RateCollection where
  rates : List Rate
  unique_nuclei : List Nucleus
  nuclei_consumed : Nucleus → List Rate
  nuclei_produced : Nucleus → List Rate
  reaclib_rates : List Nat
  tabular_rates : List Nat

/-- `RateCollection.__init__`, starting from the flat rate list extracted
from the unioned libraries (`self.rates` just before the `unique_nuclei`
computation).  The iterated Python set union `u` is modelled by `dedup`
(set semantics; the subsequent `sorted` makes the order canonical), the
dictionary comprehensions by list filters over the pre-partition rate
list, and `sorted(self.rates, key=lambda r: r.chapter == 't')` by the
stable `insertionSort` under `tabLe`. -/
def mkRateCollection (input : List Rate) : RateCollection :=
  let u := (input.flatMap (fun r => r.reactants ++ r.products)).dedup
  let sortedRates := List.insertionSort tabLe input
  { rates := sortedRates
    unique_nuclei := List.insertionSort nucLe u
    nuclei_consumed := fun n => input.filter (fun r => n ∈ r.reactants)
    nuclei_produced := fun n => input.filter (fun r => n ∈ r.products)
    reaclib_rates :=
      (sortedRates.enum.filter (fun p => p.2.chapter.isNum)).map Prod.fst
    tabular_rates :=
      (sortedRates.enum.filter (fun p => p.2.chapter.isTab)).map Prod.fst }

/-- The classification loop of `__init__` prints an error and calls
`exit()` as soon as some rate's chapter is neither `'t'` nor an `int`;
construction completes (a collection object exists) exactly when this
predicate holds. -/
def chaptersKnown (input : List Rate) : Bool :=
  input.all (fun r => r.chapter.isTab || r.chapter.isNum)

/-- `functools.reduce(mul, l)`: `none` models the `TypeError` raised on an
empty iterable (no initial value is supplied in `evaluate_rates`). -/
def reduceMul : List ℚ → Option ℚ
  | [] => none
  | x :: xs => some (xs.foldl (· * ·) x)

/-- `Option.mapM`-style lookup of every reactant's molar fraction
(`[ys[q] for q in r.reactants]`); `none` models the `KeyError` on a
missing composition entry. -/
def lookupAll (ys : List (Nucleus × ℚ)) : List Nucleus → Option (List ℚ)
  | [] => some []
  | q :: qs =>
      match alookup q ys, lookupAll ys qs with
      | some v, some vs => some (v :: vs)
      | _, _ => none

/-- The body of the `evaluate_rates` loop for one rate:
`val = r.prefactor * rho**r.dens_exp * r.eval(T)`;
`yfac = functools.reduce(mul, [ys[q] for q in r.reactants])`;
the stored value is `yfac * val`. -/
def rateValue (ys : List (Nucleus × ℚ)) (rho T : ℚ) (r : Rate) : Option ℚ :=
  match lookupAll ys r.reactants with
  | none => none
  | some vs =>
      match reduceMul vs with
      | none => none
      | some yfac => some (yfac * (r.prefactor * rho ^ r.dens_exp * r.eval T))

/-- The `evaluate_rates` loop over a rate list, building the `rvals`
dictionary (keyed by the rate itself) in rate order; the first raised
exception aborts the whole call (`none`). -/
def evalRates (ys : List (Nucleus × ℚ)) (rho T : ℚ) :
    List Rate → Option (List (Rate × ℚ))
  | [] => some []
  | r :: rs =>
      match rateValue ys rho T r, evalRates ys rho T rs with
      | some v, some l => some ((r, v) :: l)
      | _, _ => none

/-- `RateCollection.evaluate_rates(rho, T, composition)`. -/
def evaluate_rates (rc : RateCollection) (rho T : ℚ) (comp : Composition) :
    Option (List (Rate × ℚ)) :=
  evalRates (get_molar comp) rho T rc.rates

/-- `RateCollection._distinguishable_rates`:
`len(set(names)) == len(self.rates)` for `names = [r.fname for r in rates]`. -/
def distinguishable_rates (rc : RateCollection) : Bool :=
  (rc.rates.map Rate.fname).dedup.length == rc.rates.length

/-- `RateCollection._write_network`: the delegation stub (implementation
dependent; it only prints a message). -/
def write_network_stub (_rc : RateCollection) : Unit := ()

/-- `RateCollection.write_network`: assert `_distinguishable_rates()` (an
`AssertionError` is modelled as `Except.error`), then delegate to
`_write_network`. -/
def write_network (rc : RateCollection) : Except String Unit :=
  if distinguishable_rates rc then Except.ok (write_network_stub rc)
  else Except.error "ERROR: Rates not uniquely identified by Rate.fname"

/-- The node-selection loop of `RateCollection.plot`: keep a nucleus
unless its raw name is one of `"p"`, `"n"`, `"he4"`; keep one of those
three only when some rate lists it more than once as a reactant. -/
def node_nuclei (rc : RateCollection) : List Nucleus :=
  rc.unique_nuclei.filter (fun n =>
    !(n.raw ∈ ["p", "n", "he4"]) ||
      rc.rates.any (fun r => 1 < r.reactants.count n))

/-- The `try: math.log10(ydots[r]) except ValueError: -308` edge-weight
computation of `plot`.  `math.log10` raises `ValueError` exactly on
non-positive floats; `log10` stands for the external real logarithm. -/
def plot_edge_weight (log10 : ℚ → ℚ) (v : ℚ) : ℚ :=
  if 0 < v then log10 v else -308

/-- The edge-construction loop of `plot` when a thermodynamic state was
supplied: for each node `n`, each rate of `nuclei_consumed[n]`, and each
of its products `p` that is also a node, one directed edge `n → p`
weighted by the rate's evaluated value `ydots[r]` through
`plot_edge_weight`. -/
def plot_edges (rc : RateCollection) (log10 : ℚ → ℚ) (ydots : Rate → ℚ) :
    List (Nucleus × Nucleus × ℚ) :=
  (node_nuclei rc).flatMap (fun n =>
    (rc.nuclei_consumed n).flatMap (fun r =>
      (r.products.filter (fun p => p ∈ node_nuclei rc)).map (fun p =>
        (n, p, plot_edge_weight log10 (ydots r)))))

/-- `composition.get_molar()` as a state-passing method call: the returned
pair is (receiver state after the call, result).  The method allocates a
fresh dict and performs no assignment to `self.X`. -/
def get_molar_state (c : Composition) : Composition × List (Nucleus × ℚ) :=
  (c, get_molar c)

/-- `evaluate_rates` as a state-passing method call on the pair (collection
state, composition state): the body reads `self.rates` and calls
`composition.get_molar()`, and performs no assignment to either object. -/
def evaluate_rates_state (rc : RateCollection) (rho T : ℚ)
    (comp : Composition) :
    (RateCollection × Composition) × Option (List (Rate × ℚ)) :=
  let s := get_molar_state comp
  ((rc, s.1), evalRates s.2 rho T rc.rates)

/-- A Python value passed to `Composition.__init__`: either a `Nucleus`
object or some other object (carrying an opaque description). -/
inductive PyVal where
  | nuc : Nucleus → PyVal
  | other : String → PyVal
deriving DecidableEq, Repr

/-- `isinstance(v, Nucleus)`. -/
def PyVal.isNucleus : PyVal → Bool
  | .nuc _ => true
  | .other _ => false

/-- Key sequence of a Python dict comprehension `{k: c for k in l}`,
built left to right: a key is kept when not seen before (first occurrence
of each key, in first-occurrence order). -/
def pyDedupAux (seen : List PyVal) : List PyVal → List PyVal
  | [] => []
  | a :: l => if a ∈ seen then pyDedupAux seen l else a :: pyDedupAux (a :: seen) l

/-- Key sequence of a Python dict comprehension `{k: c for k in l}`. -/
def pyDedup (l : List PyVal) : List PyVal := pyDedupAux [] l

/-- `Composition.__init__(nuclei, small)`: `nuclei[0]` raises `IndexError`
on an empty iterable; a non-`Nucleus` first element raises
`ValueError`; otherwise the dict `{k: small for k in nuclei}` is built —
later elements are NOT type-checked.  The result is the stored `X`. -/
def composition_init (nuclei : List PyVal) (small : ℚ) :
    Except String (List (PyVal × ℚ)) :=
  match nuclei with
  | [] => Except.error "IndexError: list index out of range"
  | v :: _ =>
      if v.isNucleus then
        Except.ok ((pyDedup nuclei).map (fun k => (k, small)))
      else
        Except.error "ValueError: must supply an iterable of Nucleus objects"

/-! ### Helper lemmas -/

lemma map_ext_fun {α β : Type _} (f g : α → β) (l : List α) (h : ∀ a, f a = g a) :
    l.map f = l.map g := by
  induction l with
  | nil => rfl
  | cons a t ih => simp [h a, ih]

lemma orderedInsert_tabLe_of_notTab (r : Rate) (h : r.chapter.isTab = false)
    (l : List Rate) : List.orderedInsert tabLe r l = r :: l := by
  cases l with
  | nil => rfl
  | cons x xs =>
      have : tabLe r x := by unfold tabLe tabKey; rw [h]; simp
      simp [List.orderedInsert, this]

lemma orderedInsert_tabLe_append (r : Rate) (h : r.chapter.isTab = true)
    (A B : List Rate) (hA : ∀ x ∈ A, x.chapter.isTab = false) :
    List.orderedInsert tabLe r (A ++ B) = A ++ List.orderedInsert tabLe r B := by
  induction A with
  | nil => rfl
  | cons x xs ih =>
      have hx : x.chapter.isTab = false := hA x (List.mem_cons_self x xs)
      have hnle : ¬ tabLe r x := by
        unfold tabLe tabKey; rw [h, hx]; simp
      simp only [List.cons_append, List.orderedInsert, if_neg hnle, List.append_eq]
      rw [ih (fun y hy => hA y (List.mem_cons_of_mem x hy))]

lemma orderedInsert_tabLe_allTab (r : Rate) (h : r.chapter.isTab = true)
    (B : List Rate) (hB : ∀ x ∈ B, x.chapter.isTab = true) :
    List.orderedInsert tabLe r B = r :: B := by
  cases B with
  | nil => rfl
  | cons x xs =>
      have hx : x.chapter.isTab = true := hB x (List.mem_cons_self x xs)
      have : tabLe r x := by unfold tabLe tabKey; rw [h, hx]
      simp [List.orderedInsert, this]

/-- Python's `sorted` with the boolean key `r.chapter == 't'` is a stable
partition: all non-tabulated rates first, then all tabulated ones, both in
original order. -/
lemma insertionSort_tabLe_partition (l : List Rate) :
    List.insertionSort tabLe l =
      l.filter (fun r => !r.chapter.isTab) ++ l.filter (fun r => r.chapter.isTab) := by
  induction l with
  | nil => rfl
  | cons r t ih =>
      simp only [List.insertionSort, ih]
      cases h : r.chapter.isTab with
      | false =>
          rw [orderedInsert_tabLe_of_notTab r h]
          simp [List.filter_cons, h]
      | true =>
          rw [orderedInsert_tabLe_append r h _ _
                (fun x hx => by
                  have := (List.mem_filter.mp hx).2
                  simpa using this),
              orderedInsert_tabLe_allTab r h _
                (fun x hx => (List.mem_filter.mp hx).2)]
          simp [List.filter_cons, h]

lemma mem_mkRateCollection_rates (input : List Rate) (r : Rate) :
    r ∈ (mkRateCollection input).rates ↔ r ∈ input :=
  (List.perm_insertionSort tabLe input).mem_iff

lemma alookup_map_values (q : Nucleus) (f : Nucleus → ℚ → ℚ) :
    ∀ l : List (Nucleus × ℚ),
      alookup q (l.map (fun kv => (kv.1, f kv.1 kv.2))) = (alookup q l).map (f q)
  | [] => rfl
  | (a, v) :: rest => by
      by_cases h : a = q
      · subst h; simp [alookup]
      · simp [alookup, h, alookup_map_values q f rest]

lemma alookup_get_molar (q : Nucleus) (c : Composition) :
    alookup q (get_molar c) = (alookup q c.X).map (fun v => v / (q.A : ℚ)) :=
  alookup_map_values q (fun k v => v / (k.A : ℚ)) c.X

lemma mem_akeys_exists (q : Nucleus) :
    ∀ l : List (Nucleus × ℚ), q ∈ akeys l → ∃ v, alookup q l = some v
  | [], h => by simp [akeys] at h
  | (a, v) :: rest, h => by
      by_cases ha : a = q
      · exact ⟨v, by simp [alookup, ha]⟩
      · have : q ∈ akeys rest := by
          simp only [akeys, List.map_cons, List.mem_cons] at h
          exact h.resolve_left (fun hq => ha hq.symm)
        obtain ⟨w, hw⟩ := mem_akeys_exists q rest this
        exact ⟨w, by simp [alookup, ha, hw]⟩

lemma lookupAll_eq (ys : List (Nucleus × ℚ)) :
    ∀ qs : List Nucleus, (∀ q ∈ qs, ∃ v, alookup q ys = some v) →
      lookupAll ys qs = some (qs.map (fun q => (alookup q ys).getD 0))
  | [], _ => rfl
  | q :: qs, h => by
      obtain ⟨v, hv⟩ := h q (List.mem_cons_self q qs)
      rw [lookupAll, hv, lookupAll_eq ys qs (fun x hx => h x (List.mem_cons_of_mem q hx))]
      simp [hv]

lemma foldl_mul_eq (l : List ℚ) : ∀ a : ℚ, l.foldl (· * ·) a = a * l.prod := by
  induction l with
  | nil => intro a; simp
  | cons x xs ih => intro a; simp [ih, mul_assoc]

lemma reduceMul_eq (l : List ℚ) (h : l ≠ []) : reduceMul l = some l.prod := by
  cases l with
  | nil => exact absurd rfl h
  | cons x xs => simp [reduceMul, foldl_mul_eq]

lemma rateValue_eq (ys : List (Nucleus × ℚ)) (rho T : ℚ) (r : Rate)
    (hne : r.reactants ≠ [])
    (hcov : ∀ q ∈ r.reactants, ∃ v, alookup q ys = some v) :
    rateValue ys rho T r =
      some ((r.reactants.map (fun q => (alookup q ys).getD 0)).prod *
        (r.prefactor * rho ^ r.dens_exp * r.eval T)) := by
  have hmap : r.reactants.map (fun q => (alookup q ys).getD 0) ≠ [] := by
    simpa using hne
  rw [rateValue, lookupAll_eq ys r.reactants hcov]
  simp [reduceMul_eq _ hmap]

lemma evalRates_eq (ys : List (Nucleus × ℚ)) (rho T : ℚ) :
    ∀ rs : List Rate,
      (∀ r ∈ rs, r.reactants ≠ [] ∧ ∀ q ∈ r.reactants, ∃ v, alookup q ys = some v) →
      evalRates ys rho T rs =
        some (rs.map (fun r =>
          (r, (r.reactants.map (fun q => (alookup q ys).getD 0)).prod *
            (r.prefactor * rho ^ r.dens_exp * r.eval T))))
  | [], _ => rfl
  | r :: rs, h => by
      obtain ⟨hne, hcov⟩ := h r (List.mem_cons_self r rs)
      rw [evalRates, rateValue_eq ys rho T r hne hcov,
          evalRates_eq ys rho T rs (fun x hx => h x (List.mem_cons_of_mem r hx))]
      simp

lemma getD_map_div (o : Option ℚ) (a : ℚ) :
    (o.map (fun v => v / a)).getD 0 = o.getD 0 / a := by
  cases o <;> simp

/-- Reassigning the `fname` attribute of a rate, leaving every other
attribute alone.  Used to express that an operation is insensitive to the
`fname` values (in particular to collisions among them). -/
def setFname (f : Rate → String) (r : Rate) : Rate := { r with fname := f r }

lemma chapter_setFname (f : Rate → String) (r : Rate) :
    (setFname f r).chapter = r.chapter := rfl

lemma chaptersKnown_map_setFname (f : Rate → String) (l : List Rate) :
    chaptersKnown (l.map (setFname f)) = chaptersKnown l := by
  unfold chaptersKnown
  rw [List.all_map]
  rfl

lemma orderedInsert_tabLe_map_setFname (f : Rate → String) (r : Rate) :
    ∀ l : List Rate,
      List.orderedInsert tabLe (setFname f r) (l.map (setFname f)) =
        (List.orderedInsert tabLe r l).map (setFname f)
  | [] => rfl
  | x :: xs => by
      by_cases h : tabLe r x
      · have h' : tabLe (setFname f r) (setFname f x) := h
        simp only [List.map_cons, List.orderedInsert, if_pos h, if_pos h', List.map_cons]
      · have h' : ¬ tabLe (setFname f r) (setFname f x) := h
        simp only [List.map_cons, List.orderedInsert, if_neg h, if_neg h', List.map_cons]
        rw [orderedInsert_tabLe_map_setFname f r xs]

lemma insertionSort_tabLe_map_setFname (f : Rate → String) :
    ∀ l : List Rate,
      List.insertionSort tabLe (l.map (setFname f)) =
        (List.insertionSort tabLe l).map (setFname f)
  | [] => rfl
  | x :: xs => by
      simp only [List.map_cons, List.insertionSort,
        insertionSort_tabLe_map_setFname f xs]
      exact orderedInsert_tabLe_map_setFname f x (List.insertionSort tabLe xs)

lemma rateValue_setFname (ys : List (Nucleus × ℚ)) (rho T : ℚ)
    (f : Rate → String) (r : Rate) :
    rateValue ys rho T (setFname f r) = rateValue ys rho T r := rfl

lemma evalRates_map_setFname (ys : List (Nucleus × ℚ)) (rho T : ℚ)
    (f : Rate → String) :
    ∀ rs : List Rate,
      evalRates ys rho T (rs.map (setFname f)) =
        (evalRates ys rho T rs).map (List.map (fun rv => (setFname f rv.1, rv.2)))
  | [] => rfl
  | r :: rs => by
      rw [List.map_cons, evalRates, evalRates,
          rateValue_setFname ys rho T f r,
          evalRates_map_setFname ys rho T f rs]
      cases rateValue ys rho T r <;> cases evalRates ys rho T rs <;> simp

/-- `len(set(names)) == len(self.rates)` is exactly pairwise distinctness. -/
lemma distinguishable_iff (rc : RateCollection) :
    distinguishable_rates rc = true ↔ (rc.rates.map Rate.fname).Nodup := by
  unfold distinguishable_rates
  rw [beq_iff_eq]
  constructor
  · intro h
    have hlen : (rc.rates.map Rate.fname).dedup.length =
        (rc.rates.map Rate.fname).length := by
      rw [h, List.length_map]
    have := (List.dedup_sublist (rc.rates.map Rate.fname)).eq_of_length hlen
    rw [← this]
    exact List.nodup_dedup _
  · intro h
    rw [List.dedup_eq_self.mpr h, List.length_map]

lemma mem_pyDedupAux (x : PyVal) :
    ∀ (l seen : List PyVal), x ∈ pyDedupAux seen l → x ∈ l
  | [], _, h => by simp [pyDedupAux] at h
  | a :: l, seen, h => by
      by_cases ha : a ∈ seen
      · simp only [pyDedupAux, if_pos ha] at h
        exact List.mem_cons_of_mem a (mem_pyDedupAux x l seen h)
      · simp only [pyDedupAux, if_neg ha, List.mem_cons] at h
        rcases h with h | h
        · exact h ▸ List.mem_cons_self a l
        · exact List.mem_cons_of_mem a (mem_pyDedupAux x l (a :: seen) h)

lemma sum_map_div (s : ℚ) : ∀ l : List ℚ, (l.map (fun v => v / s)).sum = l.sum / s
  | [] => by simp
  | x :: xs => by simp [sum_map_div s xs, add_div]

lemma xsum_map_div (l : List (Nucleus × ℚ)) (s : ℚ) :
    ((l.map (fun kv => (kv.1, kv.2 / s))).map Prod.snd).sum =
      (l.map Prod.snd).sum / s := by
  induction l with
  | nil => simp
  | cons a t ih => simp only [List.map_cons, List.sum_cons, ih, add_div]

lemma xsum_normalized (c : Composition) (h : xsum c ≠ 0) :
    xsum ⟨c.X.map (fun kv => (kv.1, kv.2 / xsum c))⟩ = 1 := by
  have : xsum ⟨c.X.map (fun kv => (kv.1, kv.2 / xsum c))⟩ = xsum c / xsum c :=
    xsum_map_div c.X (xsum c)
  rw [this, div_self h]

lemma normalize_of_sum_one (c : Composition) (h : xsum c = 1) :
    normalize c = some c := by
  unfold normalize
  rw [h, if_neg one_ne_zero]
  simp

lemma rates_mk (l : List Rate) :
    (mkRateCollection l).rates = List.insertionSort tabLe l := rfl

/-! ### Concrete sample data for witnesses -/

def nHe4 : Nucleus := ⟨"he4", 4, 2, 2, "he4"⟩

def nC12 : Nucleus := ⟨"c12", 12, 6, 6, "c12"⟩

def nO16 : Nucleus := ⟨"o16", 16, 8, 8, "o16"⟩

def nNi56 : Nucleus := ⟨"ni56", 56, 28, 28, "ni56"⟩

/-- A numeric-chapter (Reaclib) sample rate `c12 + he4 -> o16`. -/
def sampleRateA : Rate :=
  { reactants := [nC12, nHe4], products := [nO16], chapter := Chapter.num 4,
    dens_exp := 1, prefactor := 1, fname := "c12_he4_o16",
    string := "c12 + he4 -> o16", eval := fun _ => 2 }

/-- A tabulated sample rate `o16 -> ni56`. -/
def sampleRateB : Rate :=
  { reactants := [nO16], products := [nNi56], chapter := Chapter.tab,
    dens_exp := 0, prefactor := 1, fname := "o16_ni56",
    string := "o16 -> ni56", eval := fun _ => 1 }

/-! ### Claims -/

/-- C2: for every constructed `RateCollection`, `unique_nuclei` is the
deduplicated union of all reactants and products over all held rates,
sorted ascending in the `Nucleus` order: it has no duplicates, it is
sorted, and its members are exactly the nuclei appearing in some held
rate's reactants or products. -/
theorem c2_unique_nuclei (input : List Rate) (hch : chaptersKnown input = true) :
    (mkRateCollection input).unique_nuclei.Nodup ∧
    List.Sorted nucLe (mkRateCollection input).unique_nuclei ∧
    ∀ n : Nucleus, n ∈ (mkRateCollection input).unique_nuclei ↔
      ∃ r ∈ (mkRateCollection input).rates, n ∈ r.reactants ∨ n ∈ r.products := by
  refine ⟨?_, ?_, ?_⟩
  · exact ((List.perm_insertionSort nucLe _).nodup_iff).mpr (List.nodup_dedup _)
  · exact List.sorted_insertionSort nucLe _
  · intro n
    show n ∈ List.insertionSort nucLe
        ((input.flatMap (fun r => r.reactants ++ r.products)).dedup) ↔ _
    rw [(List.perm_insertionSort nucLe _).mem_iff, List.mem_dedup, List.mem_flatMap]
    constructor
    · rintro ⟨r, hr, hmem⟩
      exact ⟨r, (mem_mkRateCollection_rates input r).mpr hr, by simpa using hmem⟩
    · rintro ⟨r, hr, hmem⟩
      exact ⟨r, (mem_mkRateCollection_rates input r).mp hr, by simpa using hmem⟩

theorem c2_witness :
    chaptersKnown [sampleRateA, sampleRateB] = true ∧
    (mkRateCollection [sampleRateA, sampleRateB]).unique_nuclei.Nodup ∧
    List.Sorted nucLe (mkRateCollection [sampleRateA, sampleRateB]).unique_nuclei ∧
    (nO16 ∈ (mkRateCollection [sampleRateA, sampleRateB]).unique_nuclei ↔
      ∃ r ∈ (mkRateCollection [sampleRateA, sampleRateB]).rates,
        nO16 ∈ r.reactants ∨ nO16 ∈ r.products) := by
  have h := c2_unique_nuclei [sampleRateA, sampleRateB] (by decide)
  exact ⟨by decide, h.1, h.2.1, h.2.2 nO16⟩

/-- C3: for every constructed `RateCollection`, every nucleus `n` of
`unique_nuclei` and every held rate `r`: `r ∈ nuclei_consumed[n]` iff `n`
occurs in `r`'s reactant sequence, and `r ∈ nuclei_produced[n]` iff `n`
occurs in `r`'s product sequence. -/
theorem c3_consumed_produced (input : List Rate) (hch : chaptersKnown input = true)
    (n : Nucleus) (hn : n ∈ (mkRateCollection input).unique_nuclei)
    (r : Rate) (hr : r ∈ (mkRateCollection input).rates) :
    (r ∈ (mkRateCollection input).nuclei_consumed n ↔ n ∈ r.reactants) ∧
    (r ∈ (mkRateCollection input).nuclei_produced n ↔ n ∈ r.products) := by
  have hin : r ∈ input := (mem_mkRateCollection_rates input r).mp hr
  constructor
  · constructor
    · intro h
      have := (List.mem_filter.mp h).2
      simpa using this
    · intro h
      exact List.mem_filter.mpr ⟨hin, by simpa using h⟩
  · constructor
    · intro h
      have := (List.mem_filter.mp h).2
      simpa using this
    · intro h
      exact List.mem_filter.mpr ⟨hin, by simpa using h⟩

theorem c3_witness :
    chaptersKnown [sampleRateA, sampleRateB] = true ∧
    nC12 ∈ (mkRateCollection [sampleRateA, sampleRateB]).unique_nuclei ∧
    ((sampleRateA ∈ (mkRateCollection [sampleRateA, sampleRateB]).nuclei_consumed nC12 ↔
        nC12 ∈ sampleRateA.reactants) ∧
      (sampleRateA ∈ (mkRateCollection [sampleRateA, sampleRateB]).nuclei_produced nC12 ↔
        nC12 ∈ sampleRateA.products)) := by
  have hr : sampleRateA ∈ (mkRateCollection [sampleRateA, sampleRateB]).rates :=
    (mem_mkRateCollection_rates _ _).mpr (by simp)
  exact ⟨by decide, by decide,
    c3_consumed_produced [sampleRateA, sampleRateB] (by decide) nC12 (by decide)
      sampleRateA hr⟩

/-- C4: after construction the stored rate sequence is the stable
partition of the assembled input sequence by `chapter == 't'`: it equals
the non-tabulated rates in original order followed by the tabulated rates
in original order. -/
theorem c4_stable_partition (input : List Rate) (hch : chaptersKnown input = true) :
    (mkRateCollection input).rates =
      input.filter (fun r => !r.chapter.isTab) ++
        input.filter (fun r => r.chapter.isTab) :=
  insertionSort_tabLe_partition input

theorem c4_witness :
    chaptersKnown [sampleRateB, sampleRateA] = true ∧
    (mkRateCollection [sampleRateB, sampleRateA]).rates =
      [sampleRateB, sampleRateA].filter (fun r => !r.chapter.isTab) ++
        [sampleRateB, sampleRateA].filter (fun r => r.chapter.isTab) ∧
    (mkRateCollection [sampleRateB, sampleRateA]).rates =
      [sampleRateA, sampleRateB] := by
  have h := c4_stable_partition [sampleRateB, sampleRateA] (by decide)
  exact ⟨by decide, h, h.trans rfl⟩

/-- C7: on a composition over 4 nuclei containing the proton and a
nucleus named `he4`, `set_solar_like` with `Z = 0.02` assigns
(pre-normalization) `0.70` to the proton, `0.3 - 0.02 = 0.28` to `he4`
and `0.02 / 2 = 0.01` to each of the two remaining nuclei, and the final
normalization leaves these values with sum exactly 1. -/
theorem c7_solar_like (he n3 n4 : Nucleus) (v1 v2 v3 v4 : ℚ)
    (hhe : he.raw = "he4")
    (h3p : n3 ≠ protonNucleus) (h3he : n3.raw ≠ "he4")
    (h4p : n4 ≠ protonNucleus) (h4he : n4.raw ≠ "he4") :
    solar_assign ⟨[(protonNucleus, v1), (he, v2), (n3, v3), (n4, v4)]⟩ (1/50) =
      ⟨[(protonNucleus, 7/10), (he, 7/25), (n3, 1/100), (n4, 1/100)]⟩ ∧
    set_solar_like ⟨[(protonNucleus, v1), (he, v2), (n3, v3), (n4, v4)]⟩ (1/50) =
      some ⟨[(protonNucleus, 7/10), (he, 7/25), (n3, 1/100), (n4, 1/100)]⟩ ∧
    xsum ⟨[(protonNucleus, 7/10), (he, 7/25), (n3, 1/100), (n4, 1/100)]⟩ = 1 := by
  have hhep : he ≠ protonNucleus := by
    intro h
    rw [h] at hhe
    exact absurd hhe (by decide)
  have hassign :
      solar_assign ⟨[(protonNucleus, v1), (he, v2), (n3, v3), (n4, v4)]⟩ (1/50) =
        ⟨[(protonNucleus, 7/10), (he, 7/25), (n3, 1/100), (n4, 1/100)]⟩ := by
    unfold solar_assign
    simp only [List.map_cons, List.map_nil, List.length_cons, List.length_nil,
      if_pos rfl, if_neg hhep, hhe, if_pos rfl, if_neg h3p, if_neg h3he,
      if_neg h4p, if_neg h4he, Composition.mk.injEq, List.cons.injEq,
      Prod.mk.injEq]
    norm_num
  have hsum : xsum
      (⟨[(protonNucleus, 7/10), (he, 7/25), (n3, 1/100), (n4, 1/100)]⟩ :
        Composition) = 1 := by
    unfold xsum
    norm_num
  refine ⟨hassign, ?_, hsum⟩
  unfold set_solar_like
  rw [if_neg (by simp), hassign, normalize_of_sum_one _ hsum]

theorem c7_witness :
    nHe4.raw = "he4" ∧ nC12 ≠ protonNucleus ∧ nC12.raw ≠ "he4" ∧
    nO16 ≠ protonNucleus ∧ nO16.raw ≠ "he4" ∧
    (solar_assign ⟨[(protonNucleus, 1/10), (nHe4, 1/10), (nC12, 1/10), (nO16, 1/10)]⟩ (1/50) =
      ⟨[(protonNucleus, 7/10), (nHe4, 7/25), (nC12, 1/100), (nO16, 1/100)]⟩ ∧
    set_solar_like ⟨[(protonNucleus, 1/10), (nHe4, 1/10), (nC12, 1/10), (nO16, 1/10)]⟩ (1/50) =
      some ⟨[(protonNucleus, 7/10), (nHe4, 7/25), (nC12, 1/100), (nO16, 1/100)]⟩ ∧
    xsum ⟨[(protonNucleus, 7/10), (nHe4, 7/25), (nC12, 1/100), (nO16, 1/100)]⟩ = 1) := by
  refine ⟨by decide, by decide, by decide, by decide, by decide, ?_⟩
  exact c7_solar_like nHe4 nC12 nO16 (1/10) (1/10) (1/10) (1/10)
    (by decide) (by decide) (by decide) (by decide) (by decide)

/-- C8: `normalize` is idempotent: for every composition with nonzero
mass-fraction sum, one call succeeds, and a second call returns the same
mapping unchanged. -/
theorem c8_normalize_idempotent (c : Composition) (h : xsum c ≠ 0) :
    ∃ c', normalize c = some c' ∧ normalize c' = some c' := by
  refine ⟨⟨c.X.map (fun kv => (kv.1, kv.2 / xsum c))⟩, ?_, ?_⟩
  · unfold normalize
    rw [if_neg h]
  · exact normalize_of_sum_one _ (xsum_normalized c h)

theorem c8_witness :
    xsum ⟨[(nHe4, 1/4), (nC12, 1/4)]⟩ ≠ 0 ∧
    ∃ c', normalize ⟨[(nHe4, 1/4), (nC12, 1/4)]⟩ = some c' ∧
      normalize c' = some c' :=
  ⟨by norm_num [xsum], c8_normalize_idempotent ⟨[(nHe4, 1/4), (nC12, 1/4)]⟩
    (by norm_num [xsum])⟩

/-- C1 (amended): for every constructed `RateCollection` whose rates all
have at least one reactant, and every density, temperature and
composition whose key set covers every reactant nucleus, `evaluate_rates`
maps each held rate `r` to exactly
`prefactor · rho^dens_exp · eval(T) · ∏ y_q` over the reactant multiset,
where `y_q` is the mass fraction of `q` divided by its mass number.  (The
original claim, without the nonempty-reactant condition, fails: see the
counterexample.) -/
theorem c1_evaluate_rates (input : List Rate) (rho T : ℚ) (comp : Composition)
    (hch : chaptersKnown input = true)
    (hne : ∀ r ∈ input, r.reactants ≠ [])
    (hcov : ∀ r ∈ input, ∀ q ∈ r.reactants, q ∈ akeys comp.X) :
    evaluate_rates (mkRateCollection input) rho T comp =
      some ((mkRateCollection input).rates.map (fun r =>
        (r, r.prefactor * rho ^ r.dens_exp * r.eval T *
          (r.reactants.map
            (fun q => (alookup q comp.X).getD 0 / (q.A : ℚ))).prod))) := by
  have hall : ∀ r ∈ (mkRateCollection input).rates,
      r.reactants ≠ [] ∧
        ∀ q ∈ r.reactants, ∃ v, alookup q (get_molar comp) = some v := by
    intro r hr
    have hin : r ∈ input := (mem_mkRateCollection_rates input r).mp hr
    refine ⟨hne r hin, fun q hq => ?_⟩
    obtain ⟨v, hv⟩ := mem_akeys_exists q comp.X (hcov r hin q hq)
    exact ⟨v / (q.A : ℚ), by rw [alookup_get_molar, hv]; rfl⟩
  rw [evaluate_rates, evalRates_eq (get_molar comp) rho T _ hall]
  congr 1
  apply map_ext_fun
  intro r
  have hinner : r.reactants.map (fun q => (alookup q (get_molar comp)).getD 0) =
      r.reactants.map (fun q => (alookup q comp.X).getD 0 / (q.A : ℚ)) :=
    map_ext_fun _ _ _ (fun q => by rw [alookup_get_molar, getD_map_div])
  exact congrArg (fun x => (r, x)) (by rw [hinner]; ring)

/-- A rate with an empty reactant list: `functools.reduce(mul, [])` then
raises `TypeError`, so `evaluate_rates` fails instead of producing the
empty product. -/
def c1cexRate : Rate :=
  { reactants := [], products := [nNi56], chapter := Chapter.num 4,
    dens_exp := 0, prefactor := 1, fname := "cex1", string := "-> ni56",
    eval := fun _ => 1 }

def c1cexComp : Composition := ⟨[(nNi56, 1/2)]⟩

/-- C1 counterexample: construction of this collection succeeds and the
composition's key set (vacuously) covers every reactant, yet
`evaluate_rates` raises (returns no mapping at all) instead of mapping
the rate to `k · rho^e · eval(T) · 1` as the claim requires. -/
theorem c1_counterexample :
    chaptersKnown [c1cexRate] = true ∧
    evaluate_rates (mkRateCollection [c1cexRate]) 1 1 c1cexComp = none :=
  ⟨by decide, rfl⟩

/-- The two-proton witness rate of the spec's concrete case: prefactor 1,
density exponent 2, temperature coefficient 3. -/
def wPP : Rate :=
  { reactants := [protonNucleus, protonNucleus], products := [nC12],
    chapter := Chapter.num 1, dens_exp := 2, prefactor := 1, fname := "p_p",
    string := "p + p -> c12", eval := fun _ => 3 }

def wPPComp : Composition := ⟨[(protonNucleus, 1/2), (nC12, 1/2)]⟩

theorem c1_witness :
    chaptersKnown [wPP] = true ∧
    evaluate_rates (mkRateCollection [wPP]) 10 5 wPPComp =
      some ((mkRateCollection [wPP]).rates.map (fun r =>
        (r, r.prefactor * 10 ^ r.dens_exp * r.eval 5 *
          (r.reactants.map
            (fun q => (alookup q wPPComp.X).getD 0 / (q.A : ℚ))).prod))) ∧
    evaluate_rates (mkRateCollection [wPP]) 10 5 wPPComp =
      some [(wPP, 75)] := by
  have h := c1_evaluate_rates [wPP] 10 5 wPPComp (by decide)
    (by
      intro r hr
      simp only [List.mem_singleton] at hr
      subst hr
      decide)
    (by
      intro r hr
      simp only [List.mem_singleton] at hr
      subst hr
      decide)
  refine ⟨by decide, h, h.trans ?_⟩
  have hv : wPP.prefactor * 10 ^ wPP.dens_exp * wPP.eval 5 *
      (wPP.reactants.map
        (fun q => (alookup q wPPComp.X).getD 0 / (q.A : ℚ))).prod = 75 := by
    norm_num [wPP, wPPComp, alookup, protonNucleus, nC12]
  calc some ((mkRateCollection [wPP]).rates.map (fun r =>
        (r, r.prefactor * 10 ^ r.dens_exp * r.eval 5 *
          (r.reactants.map
            (fun q => (alookup q wPPComp.X).getD 0 / (q.A : ℚ))).prod)))
      = some [(wPP, wPP.prefactor * 10 ^ wPP.dens_exp * wPP.eval 5 *
          (wPP.reactants.map
            (fun q => (alookup q wPPComp.X).getD 0 / (q.A : ℚ))).prod)] := rfl
    _ = some [(wPP, 75)] := by rw [hv]

/-- C5: `fname` collisions never cause a failure at construction or
during `evaluate_rates`: construction success and the evaluated values
are invariant under arbitrary reassignment of the `fname` attributes
(in particular under making them all collide), and evaluation succeeds
under its documented precondition with no condition on the `fname`s.
`write_network` delegates to the writer exactly when the `fname`s of the
held rates are pairwise distinct, and fails with an error exactly when
they are not. -/
theorem c5_fname_collisions (input : List Rate) (hch : chaptersKnown input = true) :
    (∀ f : Rate → String, chaptersKnown (input.map (setFname f)) = true) ∧
    (∀ (f : Rate → String) (rho T : ℚ) (comp : Composition),
      evaluate_rates (mkRateCollection (input.map (setFname f))) rho T comp =
        (evaluate_rates (mkRateCollection input) rho T comp).map
          (List.map (fun rv => (setFname f rv.1, rv.2)))) ∧
    (∀ (rho T : ℚ) (comp : Composition),
      (∀ r ∈ input, r.reactants ≠ [] ∧ ∀ q ∈ r.reactants, q ∈ akeys comp.X) →
      (evaluate_rates (mkRateCollection input) rho T comp).isSome = true) ∧
    (write_network (mkRateCollection input) =
        Except.ok (write_network_stub (mkRateCollection input)) ↔
      ((mkRateCollection input).rates.map Rate.fname).Nodup) ∧
    (¬ ((mkRateCollection input).rates.map Rate.fname).Nodup →
      write_network (mkRateCollection input) =
        Except.error "ERROR: Rates not uniquely identified by Rate.fname") := by
  refine ⟨?_, ?_, ?_, ?_, ?_⟩
  · intro f
    rw [chaptersKnown_map_setFname]
    exact hch
  · intro f rho T comp
    unfold evaluate_rates
    rw [rates_mk, rates_mk, insertionSort_tabLe_map_setFname,
      evalRates_map_setFname]
  · intro rho T comp h
    have hall : ∀ r ∈ (mkRateCollection input).rates,
        r.reactants ≠ [] ∧
          ∀ q ∈ r.reactants, ∃ v, alookup q (get_molar comp) = some v := by
      intro r hr
      have hin : r ∈ input := (mem_mkRateCollection_rates input r).mp hr
      refine ⟨(h r hin).1, fun q hq => ?_⟩
      obtain ⟨v, hv⟩ := mem_akeys_exists q comp.X ((h r hin).2 q hq)
      exact ⟨v / (q.A : ℚ), by rw [alookup_get_molar, hv]; rfl⟩
    rw [evaluate_rates, evalRates_eq (get_molar comp) rho T _ hall]
    rfl
  · have hiff := distinguishable_iff (mkRateCollection input)
    unfold write_network
    by_cases hd : distinguishable_rates (mkRateCollection input) = true
    · rw [if_pos hd]
      exact ⟨fun _ => hiff.mp hd, fun _ => rfl⟩
    · rw [if_neg hd]
      constructor
      · intro hcontra
        exact absurd hcontra (by simp)
      · intro hnodup
        exact absurd (hiff.mpr hnodup) hd
  · intro hnd
    have hd : ¬ distinguishable_rates (mkRateCollection input) = true :=
      fun hx => hnd ((distinguishable_iff (mkRateCollection input)).mp hx)
    unfold write_network
    rw [if_neg hd]

/-- Two distinct sample rates sharing the `fname` `"dup"`. -/
def dupRate1 : Rate :=
  { reactants := [nC12, nHe4], products := [nO16], chapter := Chapter.num 4,
    dens_exp := 1, prefactor := 1, fname := "dup",
    string := "c12 + he4 -> o16", eval := fun _ => 2 }

def dupRate2 : Rate :=
  { reactants := [nO16, nHe4], products := [nNi56], chapter := Chapter.num 4,
    dens_exp := 1, prefactor := 2, fname := "dup",
    string := "o16 + he4 -> ni56", eval := fun _ => 5 }

theorem c5_witness :
    chaptersKnown [dupRate1, dupRate2] = true ∧
    chaptersKnown ([dupRate1, dupRate2].map (setFname (fun _ => "same"))) = true ∧
    write_network (mkRateCollection [dupRate1, dupRate2]) =
      Except.error "ERROR: Rates not uniquely identified by Rate.fname" := by
  have h := c5_fname_collisions [dupRate1, dupRate2] (by decide)
  refine ⟨by decide, h.1 (fun _ => "same"), h.2.2.2.2 ?_⟩
  have hf : (mkRateCollection [dupRate1, dupRate2]).rates.map Rate.fname =
      ["dup", "dup"] := rfl
  rw [hf]
  decide

/-- C9: in the edge-construction of `plot` with a supplied thermodynamic
state, every edge arises from a rate consumed at its source node, and its
weight is `-308` whenever that rate's evaluated value is exactly `0`
(no error, and no NaN/infinite value is produced — the weight is the
rational sentinel), and `log10` of the value whenever the value is
positive. -/
theorem c9_zero_weight (input : List Rate) (log10 : ℚ → ℚ) (ydots : Rate → ℚ)
    (n p : Nucleus) (w : ℚ) (hch : chaptersKnown input = true)
    (hmem : (n, p, w) ∈ plot_edges (mkRateCollection input) log10 ydots) :
    ∃ r, r ∈ (mkRateCollection input).nuclei_consumed n ∧ p ∈ r.products ∧
      w = plot_edge_weight log10 (ydots r) ∧
      (ydots r = 0 → w = -308) ∧
      (0 < ydots r → w = log10 (ydots r)) := by
  unfold plot_edges at hmem
  rw [List.mem_flatMap] at hmem
  obtain ⟨n', hn', hmem⟩ := hmem
  rw [List.mem_flatMap] at hmem
  obtain ⟨r, hr, hmem⟩ := hmem
  rw [List.mem_map] at hmem
  obtain ⟨p', hp', heq⟩ := hmem
  rw [Prod.mk.injEq, Prod.mk.injEq] at heq
  obtain ⟨hn1, hp1, hw⟩ := heq
  subst hn1
  subst hp1
  refine ⟨r, hr, (List.mem_filter.mp hp').1, hw.symm, ?_, ?_⟩
  · intro h0
    rw [← hw]
    unfold plot_edge_weight
    rw [h0, if_neg (lt_irrefl 0)]
  · intro hpos
    rw [← hw]
    unfold plot_edge_weight
    rw [if_pos hpos]

theorem c9_witness :
    chaptersKnown [sampleRateA] = true ∧
    (nC12, nO16, (-308 : ℚ)) ∈
      plot_edges (mkRateCollection [sampleRateA]) (fun _ => 0) (fun _ => 0) ∧
    ∃ r, r ∈ (mkRateCollection [sampleRateA]).nuclei_consumed nC12 ∧
      nO16 ∈ r.products ∧
      (-308 : ℚ) = plot_edge_weight (fun _ => 0) ((fun _ => (0 : ℚ)) r) ∧
      ((fun _ => (0 : ℚ)) r = 0 → (-308 : ℚ) = -308) ∧
      (0 < (fun _ => (0 : ℚ)) r → (-308 : ℚ) = (fun _ => (0 : ℚ)) r) := by
  have hmem : (nC12, nO16, (-308 : ℚ)) ∈
      plot_edges (mkRateCollection [sampleRateA]) (fun _ => 0) (fun _ => 0) := by
    decide
  exact ⟨by decide, hmem,
    c9_zero_weight [sampleRateA] (fun _ => 0) (fun _ => 0) nC12 nO16 (-308)
      (by decide) hmem⟩

/-- C10: `evaluate_rates` (run as a state-passing method call) leaves
every stored field of the collection and the composition's mass-fraction
mapping unchanged, and returns exactly the value of the pure evaluation:
the source performs no assignment to either object, and `get_molar`
builds a fresh mapping. -/
theorem c10_frame (input : List Rate) (rho T : ℚ) (comp : Composition)
    (hch : chaptersKnown input = true)
    (hcov : ∀ r ∈ (mkRateCollection input).rates,
      ∀ q ∈ r.reactants, q ∈ akeys comp.X) :
    (evaluate_rates_state (mkRateCollection input) rho T comp).1.1.rates =
        (mkRateCollection input).rates ∧
    (evaluate_rates_state (mkRateCollection input) rho T comp).1.1.unique_nuclei =
        (mkRateCollection input).unique_nuclei ∧
    (evaluate_rates_state (mkRateCollection input) rho T comp).1.1.nuclei_consumed =
        (mkRateCollection input).nuclei_consumed ∧
    (evaluate_rates_state (mkRateCollection input) rho T comp).1.1.nuclei_produced =
        (mkRateCollection input).nuclei_produced ∧
    (evaluate_rates_state (mkRateCollection input) rho T comp).1.1.reaclib_rates =
        (mkRateCollection input).reaclib_rates ∧
    (evaluate_rates_state (mkRateCollection input) rho T comp).1.1.tabular_rates =
        (mkRateCollection input).tabular_rates ∧
    (evaluate_rates_state (mkRateCollection input) rho T comp).1.2.X = comp.X ∧
    (evaluate_rates_state (mkRateCollection input) rho T comp).2 =
        evaluate_rates (mkRateCollection input) rho T comp :=
  ⟨rfl, rfl, rfl, rfl, rfl, rfl, rfl, rfl⟩

def wFrameComp : Composition := ⟨[(nC12, 1/2), (nHe4, 1/2), (nO16, 1/4)]⟩

theorem c10_witness :
    chaptersKnown [sampleRateA] = true ∧
    ((evaluate_rates_state (mkRateCollection [sampleRateA]) 10 5 wFrameComp).1.1.rates =
        (mkRateCollection [sampleRateA]).rates ∧
      (evaluate_rates_state (mkRateCollection [sampleRateA]) 10 5 wFrameComp).1.2.X =
        wFrameComp.X ∧
      (evaluate_rates_state (mkRateCollection [sampleRateA]) 10 5 wFrameComp).2 =
        evaluate_rates (mkRateCollection [sampleRateA]) 10 5 wFrameComp) := by
  have hcov : ∀ r ∈ (mkRateCollection [sampleRateA]).rates,
      ∀ q ∈ r.reactants, q ∈ akeys wFrameComp.X := by
    intro r hr
    have : (mkRateCollection [sampleRateA]).rates = [sampleRateA] := rfl
    rw [this] at hr
    simp only [List.mem_singleton] at hr
    subst hr
    decide
  have h := c10_frame [sampleRateA] 10 5 wFrameComp (by decide) hcov
  exact ⟨by decide, h.1, h.2.2.2.2.2.2.1, h.2.2.2.2.2.2.2⟩

/-- C6 (amended): the `Composition` constructor checks the type of the
FIRST element only: it fails (with an error, producing no mapping) iff
the input iterable is empty (`IndexError` on `nuclei[0]`) or its first
element is not a `Nucleus` (`ValueError`); on success every key of the
mass-fraction mapping is an element of the input iterable and the first
key is a `Nucleus` — but later non-`Nucleus` elements are NOT rejected
and do become keys.  (The original claim, that any non-`Nucleus` element
makes construction fail and hence that every key is a `Nucleus`, fails:
see the counterexample.) -/
theorem c6_init_first_element (l : List PyVal) (s : ℚ) :
    ((∃ X, composition_init l s = Except.ok X) ↔
      ∃ v t, l = v :: t ∧ v.isNucleus = true) ∧
    (∀ X, composition_init l s = Except.ok X →
      (∀ k ∈ X.map Prod.fst, k ∈ l) ∧
      ∃ k0 ks, X.map Prod.fst = k0 :: ks ∧ k0.isNucleus = true) := by
  cases l with
  | nil =>
      constructor
      · constructor
        · rintro ⟨X, hX⟩
          simp [composition_init] at hX
        · rintro ⟨v, t, h, -⟩
          exact absurd h (by simp)
      · intro X hX
        simp [composition_init] at hX
  | cons v t =>
      by_cases hv : v.isNucleus = true
      · constructor
        · exact ⟨fun _ => ⟨v, t, rfl, hv⟩,
            fun _ => ⟨(pyDedup (v :: t)).map (fun k => (k, s)),
              by simp [composition_init, hv]⟩⟩
        · intro X hX
          simp only [composition_init, if_pos hv, Except.ok.injEq] at hX
          subst hX
          constructor
          · intro k hk
            rw [List.map_map] at hk
            have : (Prod.fst ∘ fun k : PyVal => (k, s)) = id := rfl
            rw [this, List.map_id] at hk
            exact mem_pyDedupAux k (v :: t) [] hk
          · refine ⟨v, (pyDedupAux [v] t).map (fun k => (k, s)) |>.map Prod.fst, ?_, hv⟩
            rw [List.map_map]
            have : (Prod.fst ∘ fun k : PyVal => (k, s)) = id := rfl
            rw [this, List.map_id]
            show pyDedupAux [] (v :: t) = _
            rw [pyDedupAux, if_neg (by simp)]
            rw [List.map_map, this, List.map_id]
      · constructor
        · constructor
          · rintro ⟨X, hX⟩
            simp [composition_init, hv] at hX
          · rintro ⟨v', t', heq, hv'⟩
            rw [List.cons.injEq] at heq
            exact absurd (heq.1 ▸ hv') hv
        · intro X hX
          simp [composition_init, hv] at hX

/-- The C6 counterexample input: a genuine `Nucleus` first, then a
non-`Nucleus` object. -/
def c6cexList : List PyVal := [PyVal.nuc nHe4, PyVal.other "not a nucleus"]

/-- C6 counterexample: the second element is not a `Nucleus`, yet
construction succeeds (no error is raised) and the non-`Nucleus` object
ends up as a key of the mass-fraction mapping — contradicting both parts
of the original claim. -/
theorem c6_counterexample :
    (PyVal.other "not a nucleus").isNucleus = false ∧
    composition_init c6cexList (1/2) =
      Except.ok [(PyVal.nuc nHe4, 1/2), (PyVal.other "not a nucleus", 1/2)] :=
  ⟨rfl, rfl⟩

theorem c6_witness :
    ((∃ X, composition_init [PyVal.nuc nHe4] (1/4) = Except.ok X) ↔
      ∃ v t, [PyVal.nuc nHe4] = v :: t ∧ v.isNucleus = true) ∧
    (∀ X, composition_init [PyVal.nuc nHe4] (1/4) = Except.ok X →
      (∀ k ∈ X.map Prod.fst, k ∈ [PyVal.nuc nHe4]) ∧
      ∃ k0 ks, X.map Prod.fst = k0 :: ks ∧ k0.isNucleus = true) :=
  c6_init_first_element [PyVal.nuc nHe4] (1/4)

end RateCollectionPy
